import Mathlib

/-!
Verification of the clientify OpenAPI client generator core against its
specification. The development shallowly embeds the relevant Python modules:

* `src/clientify/loader.py` — the `$ref` resolution engine (`RefResolver`),
* `src/clientify/ir.py` — the IR builder (`build_ir` and helpers),
* `src/clientify/generation/type_emitter.py` — the schema-to-type compiler
  (`TypeEmitter`).

Python dictionaries are modelled as insertion-ordered association lists
(`List (String × Json)`); Python dictionaries cannot hold a key twice, and
lookups take the first binding. Mutation of `d[k] = v` keeps the position of
an existing key and appends otherwise, which `setAssoc` reproduces.
`deepcopy` is the identity on immutable values. Recursion through `$ref`
targets is not structurally decreasing in the source, so the resolver and the
type emitter take an explicit fuel argument that every recursive call
decreases; fuel exhaustion is a distinguished outcome, never conflated with a
`SpecError` of the program.
-/

/-- A JSON/YAML value as handled by the Python code: `None`, booleans,
numbers (modelled as integers; no claim involves floats), strings, lists and
insertion-ordered string-keyed dictionaries. -/
inductive Json where
  | null
  | bool (b : Bool)
  | num (n : Int)
  | str (s : String)
  | arr (items : List Json)
  | obj (fields : List (String × Json))
deriving Repr

mutual
def Json.beq : Json → Json → Bool
  | .null, .null => true
  | .bool a, .bool b => a == b
  | .num a, .num b => a == b
  | .str a, .str b => a == b
  | .arr a, .arr b => Json.beqList a b
  | .obj a, .obj b => Json.beqFields a b
  | _, _ => false

def Json.beqList : List Json → List Json → Bool
  | [], [] => true
  | x :: xs, y :: ys => Json.beq x y && Json.beqList xs ys
  | _, _ => false

def Json.beqFields : List (String × Json) → List (String × Json) → Bool
  | [], [] => true
  | (k, v) :: xs, (l, w) :: ys => k == l && Json.beq v w && Json.beqFields xs ys
  | _, _ => false
end

mutual
theorem Json.beq_iff : ∀ a b : Json, Json.beq a b = true ↔ a = b
  | .null, b => by cases b <;> simp [Json.beq]
  | .bool x, b => by cases b <;> simp [Json.beq]
  | .num x, b => by cases b <;> simp [Json.beq]
  | .str x, b => by cases b <;> simp [Json.beq]
  | .arr x, b => by
    cases b <;> simp [Json.beq]
    exact Json.beqList_iff x _
  | .obj x, b => by
    cases b <;> simp [Json.beq]
    exact Json.beqFields_iff x _

theorem Json.beqList_iff : ∀ a b : List Json, Json.beqList a b = true ↔ a = b
  | [], b => by cases b <;> simp [Json.beqList]
  | x :: xs, b => by
    cases b with
    | nil => simp [Json.beqList]
    | cons y ys =>
      simp [Json.beqList, Json.beq_iff x y, Json.beqList_iff xs ys, Bool.and_eq_true]

theorem Json.beqFields_iff : ∀ a b : List (String × Json), Json.beqFields a b = true ↔ a = b
  | [], b => by cases b <;> simp [Json.beqFields]
  | (k, v) :: xs, b => by
    cases b with
    | nil => simp [Json.beqFields]
    | cons p ys =>
      obtain ⟨l, w⟩ := p
      simp [Json.beqFields, Json.beq_iff v w, Json.beqFields_iff xs ys, Bool.and_eq_true,
        and_assoc]
end

instance : DecidableEq Json := fun a b =>
  decidable_of_iff (Json.beq a b = true) (Json.beq_iff a b)

/-- First binding of a key in an association list (Python dictionaries hold
each key once, so first match is the value of the key). -/
def lookupAssoc {κ α : Type} [DecidableEq κ] : List (κ × α) → κ → Option α
  | [], _ => none
  | (k, v) :: rest, key => if k = key then some v else lookupAssoc rest key

/-- Python `d[k] = v`: replace the value at an existing key in place,
otherwise append the new binding at the end. -/
def setAssoc {κ α : Type} [DecidableEq κ] : List (κ × α) → κ → α → List (κ × α)
  | [], key, v => [(key, v)]
  | (k, w) :: rest, key, v =>
    if k = key then (k, v) :: rest else (k, w) :: setAssoc rest key v

def hasKey (fields : List (String × Json)) (key : String) : Bool :=
  (lookupAssoc fields key).isSome

/-- Python truthiness of a JSON value: `None`, `False`, `0`, `""`, `[]` and
an empty dictionary are falsy, everything else is truthy. -/
def truthy : Json → Bool
  | .null => false
  | .bool b => b
  | .num n => n != 0
  | .str s => s != ""
  | .arr items => !items.isEmpty
  | .obj fields => !fields.isEmpty

/-- Python `mapping.get(key)`: `None` when the key is absent. The callers in
the embedded code only apply this to values they assume to be dictionaries
(Python would raise on anything else); on a non-dictionary it returns `none`,
and theorems restrict to dictionary inputs where the distinction matters. -/
def pyGet (j : Json) (key : String) : Option Json :=
  match j with
  | .obj fields => lookupAssoc fields key
  | _ => none

/-- Python `mapping.get(key, defaultValue)`. -/
def pyGetD (j : Json) (key : String) (d : Json) : Json :=
  (pyGet j key).getD d

/-- The items of a dictionary value; `[]` for anything else (the Python code
would raise on a non-dictionary where this is used). -/
def objFieldsD : Json → List (String × Json)
  | .obj fields => fields
  | _ => []

/-- Python iteration over a value: a list yields its elements, a string its
characters, a dictionary its keys. Other values are not iterable (Python
raises); the model yields `[]` there. -/
def pyElems : Json → List Json
  | .arr items => items
  | .str s => s.data.map (fun c => .str (String.mk [c]))
  | .obj fields => fields.map (fun kv => .str kv.1)
  | _ => []

/-- The elements of a list value; `[]` otherwise (models the unchecked
`cast(list[...], ...)` in `ir.py`, where Python assumes list shape). -/
def pyListD : Json → List Json
  | .arr items => items
  | _ => []

/- String utilities. Core `String` functions such as `splitOn` and `replace`
do not reduce inside the kernel, so the embedding defines its own structural
versions over the character list. -/

def splitOnCharAux (sep : Char) : List Char → List Char → List (List Char)
  | [], acc => [acc.reverse]
  | c :: rest, acc =>
    if c = sep then acc.reverse :: splitOnCharAux sep rest []
    else splitOnCharAux sep rest (c :: acc)

/-- Python `s.split(sep)` for a one-character separator. -/
def splitOnChar (sep : Char) (s : String) : List String :=
  (splitOnCharAux sep s.data []).map List.asString

def strStartsWith (s p : String) : Bool := p.data.isPrefixOf s.data

def replacePairAux (a b r : Char) : List Char → List Char
  | [] => []
  | [c] => [c]
  | c :: d :: rest =>
    if c = a ∧ d = b then r :: replacePairAux a b r rest
    else c :: replacePairAux a b r (d :: rest)

/-- Python `s.replace(ab, r)` for a two-character pattern and one-character
replacement: scans left to right, consuming matches without overlap. -/
def strReplacePair (a b r : Char) (s : String) : String :=
  (replacePairAux a b r s.data).asString

def joinWithSep (sep : String) : List String → String
  | [] => ""
  | [s] => s
  | s :: rest => s ++ sep ++ joinWithSep sep rest

def breakAtChar (sep : Char) : List Char → Option (List Char × List Char)
  | [] => none
  | c :: rest =>
    if c = sep then some ([], rest)
    else (breakAtChar sep rest).map (fun pf => (c :: pf.1, pf.2))

/-- `urllib.parse.urldefrag`: split at the first `#`; the fragment is
everything after it (empty when there is no `#`). -/
def urldefrag (s : String) : String × String :=
  match breakAtChar '#' s.data with
  | none => (s, "")
  | some (p, f) => (p.asString, f.asString)

/-- `ref.split("/")[-1]`: the last `/`-separated component. `split` never
returns an empty list, so the default is never taken. -/
def lastComponent (r : String) : String :=
  (splitOnChar '/' r).getLastD r

def escSingleQuoted : List Char → List Char
  | [] => []
  | c :: rest =>
    if c = '\\' then '\\' :: '\\' :: escSingleQuoted rest
    else if c = '\'' then '\\' :: '\'' :: escSingleQuoted rest
    else c :: escSingleQuoted rest

def escDoubleQuoted : List Char → List Char
  | [] => []
  | c :: rest =>
    if c = '\\' then '\\' :: '\\' :: escDoubleQuoted rest
    else c :: escDoubleQuoted rest

/-- Python `repr` of a string: single-quoted by default, double-quoted when
the text holds a single quote but no double quote (escape codes for
non-printable characters are not modelled; no claim exercises them). -/
def pyStrRepr (s : String) : String :=
  if s.data.contains '\'' ∧ ¬ s.data.contains '"' then
    "\"" ++ (escDoubleQuoted s.data).asString ++ "\""
  else
    "'" ++ (escSingleQuoted s.data).asString ++ "'"

mutual
/-- Python `repr` of a JSON value as it appears in generated `Literal[...]`
arms: `None`, `True`/`False`, decimal integers, quoted strings, and the
bracketed forms for containers. -/
def pyRepr : Json → String
  | .null => "None"
  | .bool true => "True"
  | .bool false => "False"
  | .num n => toString n
  | .str s => pyStrRepr s
  | .arr items => "[" ++ pyReprList items ++ "]"
  | .obj fields => "\x7b" ++ pyReprFields fields ++ "\x7d"

def pyReprList : List Json → String
  | [] => ""
  | [x] => pyRepr x
  | x :: rest => pyRepr x ++ ", " ++ pyReprList rest

def pyReprFields : List (String × Json) → String
  | [] => ""
  | [(k, v)] => pyStrRepr k ++ ": " ++ pyRepr v
  | (k, v) :: rest => pyStrRepr k ++ ": " ++ pyRepr v ++ ", " ++ pyReprFields rest
end

/-! ## Type compiler: `generation/type_emitter.py` -/

/-- `GenerationProfile` (generation/profile.py): the feature flags of the
target Python version. `TypeEmitter.emit` reads only `use_pep604`. -/
structure GenerationProfile where
  useFutureAnnotations : Bool
  usePep604 : Bool
  useRequired : Bool
  useTypingExtensions : Bool
deriving Repr, DecidableEq

/-- `TypeEmitter`: the schema-to-type-expression compiler. `imports` models
the Python `set[str]` of required typing imports as an insertion-ordered
duplicate-free list (no claim depends on set iteration order). -/
structure TypeEmitter where
  profile : GenerationProfile
  quoteRefs : Bool
  imports : List String
deriving Repr, DecidableEq

/-- `self.imports.add(s)`. -/
def TypeEmitter.addImport (e : TypeEmitter) (s : String) : TypeEmitter :=
  if s ∈ e.imports then e else { e with imports := e.imports ++ [s] }

/-- `TypeEmitter._ref_name`: both branches of the source compute
`ref.split("/")[-1]`. -/
def refName (ref : String) : String := lastComponent ref

/-- The `x-clientify-schema-name` check of `emit`: the stamp counts only when
it is a string and non-empty (`isinstance(schema_name, str) and schema_name`). -/
def schemaNameOf (fields : List (String × Json)) : Option String :=
  match lookupAssoc fields "x-clientify-schema-name" with
  | some (.str s) => if s = "" then none else some s
  | _ => none

/-- A branch key of `emit` (`oneOf`, `anyOf`, `allOf`, `enum`): taken when the
key is present with a truthy value (`schema.get(k)` followed by `if value:`). -/
def branchVal (fields : List (String × Json)) (key : String) : Option Json :=
  match lookupAssoc fields key with
  | some v => if truthy v then some v else none
  | none => none

/-- `item.get("type") == "object"` on an `allOf` member. -/
def typeIsObject (item : Json) : Bool :=
  Json.beq (pyGetD item "type" .null) (.str "object")

/-- `list(dict.fromkeys(types))` with an explicit seen-set accumulator:
keeps the first occurrence of each element, in order. -/
def fromKeysAux : List String → List String → List String
  | _, [] => []
  | seen, x :: xs =>
    if x ∈ seen then fromKeysAux seen xs else x :: fromKeysAux (x :: seen) xs

def fromKeysList (types : List String) : List String :=
  fromKeysAux [] types

mutual
/-- `TypeEmitter.emit`. Fuel decreases on every recursive call; `none` is
fuel exhaustion. A present non-string `$ref` and a non-dictionary schema make
the Python raise; the model returns `"object"` there, and every theorem's
hypotheses exclude those inputs. -/
def emit (e : TypeEmitter) (fuel : Nat) (schema : Option Json) : Option (String × TypeEmitter) :=
  match fuel with
  | 0 => none
  | fuel + 1 =>
    match schema with
    | none => some ("object", e)
    | some (.obj fields) =>
      match lookupAssoc fields "$ref" with
      | some (.str ref) =>
        some (if e.quoteRefs then pyStrRepr (refName ref) else refName ref, e)
      | some _ => some ("object", e)
      | none =>
        match schemaNameOf fields with
        | some name => some (if e.quoteRefs then pyStrRepr name else name, e)
        | none =>
          match branchVal fields "oneOf" with
          | some v => emitUnion e fuel (pyElems v)
          | none =>
            match branchVal fields "anyOf" with
            | some v => emitUnion e fuel (pyElems v)
            | none =>
              match branchVal fields "allOf" with
              | some v => emitAllOf e fuel (pyElems v)
              | none =>
                match branchVal fields "enum" with
                | some v =>
                  let e2 := e.addImport "Literal"
                  some ("Literal[" ++ joinWithSep ", " ((pyElems v).map pyRepr) ++ "]", e2)
                | none =>
                  match lookupAssoc fields "type" with
                  | some (.str "string") => some ("str", e)
                  | some (.str "integer") => some ("int", e)
                  | some (.str "number") => some ("float", e)
                  | some (.str "boolean") => some ("bool", e)
                  | some (.str "array") =>
                    match lookupAssoc fields "items" with
                    | some (.obj itemFields) =>
                      match emit e fuel (some (.obj itemFields)) with
                      | some (t, e2) => some ("list[" ++ t ++ "]", e2)
                      | none => none
                    | _ => some ("list[object]", e)
                  | some (.str "object") =>
                    match lookupAssoc fields "additionalProperties" with
                    | some (.obj addFields) =>
                      match emit e fuel (some (.obj addFields)) with
                      | some (t, e2) => some ("dict[str, " ++ t ++ "]", e2)
                      | none => none
                    | _ => some ("dict[str, object]", e)
                  | _ => some ("object", e)
    | some _ => some ("object", e)

/-- The member emissions of `_emit_union`: `[self.emit(item) for item in items]`,
threading the import accumulator left to right. -/
def emitEach (e : TypeEmitter) (fuel : Nat) (items : List Json) :
    Option (List String × TypeEmitter) :=
  match fuel with
  | 0 => none
  | fuel + 1 =>
    match items with
    | [] => some ([], e)
    | item :: rest =>
      match emit e fuel (some item) with
      | some (t, e2) =>
        match emitEach e2 fuel rest with
        | some (ts, e3) => some (t :: ts, e3)
        | none => none
      | none => none

/-- `TypeEmitter._emit_union` minus the member emissions: dedup by
`dict.fromkeys` (first occurrence kept), collapse a singleton, and render the
union per the profile. -/
def emitUnion (e : TypeEmitter) (fuel : Nat) (items : List Json) :
    Option (String × TypeEmitter) :=
  match fuel with
  | 0 => none
  | fuel + 1 =>
    match emitEach e fuel items with
    | none => none
    | some (types, e2) =>
      let unique := fromKeysList types
      match unique with
      | [] => some ("object", e2)
      | [t] => some (t, e2)
      | _ =>
        if e2.profile.usePep604 then some (joinWithSep " | " unique, e2)
        else some ("Union[" ++ joinWithSep ", " unique ++ "]", e2.addImport "Union")

/-- `TypeEmitter._emit_all_of`: if no member has `type == "object"`, fall back
to union semantics; otherwise emit the generic map type. -/
def emitAllOf (e : TypeEmitter) (fuel : Nat) (items : List Json) :
    Option (String × TypeEmitter) :=
  match fuel with
  | 0 => none
  | fuel + 1 =>
    if (items.filter typeIsObject).isEmpty then emitUnion e fuel items
    else some ("dict[str, object]", e)
end

/-! ### General facts about the emitter -/

theorem fromKeysAux_mem (t : String) :
    ∀ (xs seen : List String), t ∈ fromKeysAux seen xs ↔ t ∈ xs ∧ t ∉ seen := by
  intro xs
  induction xs with
  | nil => intro seen; simp [fromKeysAux]
  | cons x rest ih =>
    intro seen
    by_cases hx : x ∈ seen
    · simp only [fromKeysAux, if_pos hx, ih, List.mem_cons]
      by_cases htx : t = x
      · subst htx; simp [hx]
      · simp [htx]
    · simp only [fromKeysAux, if_neg hx, ih, List.mem_cons]
      by_cases htx : t = x
      · subst htx; simp [hx]
      · simp [htx]

theorem fromKeysAux_sublist : ∀ (xs seen : List String), (fromKeysAux seen xs).Sublist xs := by
  intro xs
  induction xs with
  | nil => intro seen; simp [fromKeysAux]
  | cons x rest ih =>
    intro seen
    by_cases hx : x ∈ seen
    · simpa [fromKeysAux, if_pos hx] using (ih seen).cons x
    · simpa [fromKeysAux, if_neg hx] using (ih (x :: seen)).cons₂ x

theorem fromKeysAux_nodup : ∀ (xs seen : List String), (fromKeysAux seen xs).Nodup := by
  intro xs
  induction xs with
  | nil => intro seen; simp [fromKeysAux]
  | cons x rest ih =>
    intro seen
    by_cases hx : x ∈ seen
    · simpa [fromKeysAux, if_pos hx] using ih seen
    · simp only [fromKeysAux, if_neg hx, List.nodup_cons]
      refine ⟨fun hmem => ?_, ih (x :: seen)⟩
      exact ((fromKeysAux_mem x rest (x :: seen)).mp hmem).2 (List.mem_cons_self x seen)

theorem fromKeysAux_all_seen :
    ∀ (xs seen : List String), (∀ t ∈ xs, t ∈ seen) → fromKeysAux seen xs = [] := by
  intro xs
  induction xs with
  | nil => intro seen _; rfl
  | cons x rest ih =>
    intro seen h
    have hx : x ∈ seen := h x (List.mem_cons_self x rest)
    simpa [fromKeysAux, if_pos hx] using ih seen (fun t ht => h t (List.mem_cons_of_mem x ht))

theorem fromKeysList_const (s : String) :
    ∀ types : List String, types ≠ [] → (∀ t ∈ types, t = s) → fromKeysList types = [s] := by
  intro types hne hall
  match types with
  | [] => exact absurd rfl hne
  | x :: rest =>
    have hx : x = s := hall x (List.mem_cons_self x rest)
    subst hx
    have hrest : fromKeysAux [x] rest = [] := by
      apply fromKeysAux_all_seen
      intro t ht
      rw [hall t (List.mem_cons_of_mem x ht)]
      exact List.mem_cons_self x []
    simp [fromKeysList, fromKeysAux, hrest]

theorem emitEach_length :
    ∀ (items : List Json) (e : TypeEmitter) (fuel : Nat) (types : List String) (e2 : TypeEmitter),
      emitEach e fuel items = some (types, e2) → types.length = items.length := by
  intro items
  induction items with
  | nil =>
    intro e fuel types e2 h
    match fuel with
    | 0 => simp [emitEach] at h
    | fuel + 1 =>
      simp only [emitEach] at h
      cases h
      rfl
  | cons x rest ih =>
    intro e fuel types e2 h
    match fuel with
    | 0 => simp [emitEach] at h
    | fuel + 1 =>
      simp only [emitEach] at h
      cases hx : emit e fuel (some x) with
      | none => rw [hx] at h; simp at h
      | some te =>
        obtain ⟨t, e1⟩ := te
        rw [hx] at h
        dsimp only at h
        cases hr : emitEach e1 fuel rest with
        | none => rw [hr] at h; simp at h
        | some tse =>
          obtain ⟨ts, e3⟩ := tse
          rw [hr] at h
          simp only [Option.some.injEq, Prod.mk.injEq] at h
          obtain ⟨rfl, rfl⟩ := h.symm
          simpa using ih e1 fuel ts e3 hr

theorem truthy_arr_of_ne_nil {items : List Json} (h : items ≠ []) : truthy (.arr items) = true := by
  cases items with
  | nil => exact absurd rfl h
  | cons x rest => simp [truthy]

def listContainsSub (pat : List Char) : List Char → Bool
  | [] => pat.isEmpty
  | c :: rest => pat.isPrefixOf (c :: rest) || listContainsSub pat rest

/-- Substring test, used to state that an emitted type expression does not
mention a property name. -/
def strContains (s sub : String) : Bool := listContainsSub sub.data s.data

/-- The emitter configuration produced by `GenerationProfile.from_version`
for any Python at least 3.11, as the generator CLI uses by default. -/
def eDefault : TypeEmitter :=
  { profile :=
      { useFutureAnnotations := true
        usePep604 := true
        useRequired := true
        useTypingExtensions := false }
    quoteRefs := false
    imports := [] }

/-! ### C8: union dedup and collapse -/

/-- C8: for a `oneOf` or `anyOf` schema node (with no `$ref` and no
schema-name stamp; `anyOf` fires when no truthy `oneOf` precedes it),
`TypeEmitter.emit` defers to `_emit_union` on the members; the member type
list is deduplicated keeping the first occurrence of each type expression in
member order (the dedup output is a duplicate-free sublist of the member
emissions with the same membership), and when every member emits the same
type expression the union collapses to that single expression. -/
theorem c8_union_dedup_collapse (e : TypeEmitter) (fuel : Nat)
    (fields : List (String × Json)) (items : List Json)
    (href : lookupAssoc fields "$ref" = none)
    (hname : schemaNameOf fields = none)
    (hunion : lookupAssoc fields "oneOf" = some (.arr items) ∨
      (branchVal fields "oneOf" = none ∧ lookupAssoc fields "anyOf" = some (.arr items)))
    (hne : items ≠ []) :
    emit e (fuel + 2) (some (.obj fields)) = emitUnion e (fuel + 1) items ∧
    ∀ types e2, emitEach e fuel items = some (types, e2) →
      (fromKeysList types).Sublist types ∧ (fromKeysList types).Nodup ∧
      (∀ t, t ∈ fromKeysList types ↔ t ∈ types) ∧
      ∀ s, (∀ t ∈ types, t = s) → emitUnion e (fuel + 1) items = some (s, e2) := by
  constructor
  · rcases hunion with hone | ⟨honeB, hany⟩
    · have hb : branchVal fields "oneOf" = some (.arr items) := by
        simp [branchVal, hone, truthy_arr_of_ne_nil hne]
      simp only [emit, href, hname, hb, pyElems]
    · have hb : branchVal fields "anyOf" = some (.arr items) := by
        simp [branchVal, hany, truthy_arr_of_ne_nil hne]
      simp only [emit, href, hname, honeB, hb, pyElems]
  · intro types e2 h
    refine ⟨fromKeysAux_sublist types [], fromKeysAux_nodup types [], ?_, ?_⟩
    · intro t
      simpa using fromKeysAux_mem t types []
    · intro s hall
      have hlen := emitEach_length items e fuel types e2 h
      have htne : types ≠ [] := by
        intro hnil
        apply hne
        subst hnil
        simpa using (List.length_eq_zero.mp hlen.symm)
      simp only [emitUnion, h]
      rw [fromKeysList_const s types htne hall]

/-- C8 witness: `oneOf` of two identical string schemas collapses to the
single expression `str`, and so does the same union written with `anyOf`;
no import is recorded in either case. -/
theorem c8_union_dedup_collapse_witness :
    emit eDefault 5 (some (.obj [("oneOf", .arr [.obj [("type", .str "string")],
      .obj [("type", .str "string")]])])) = some ("str", eDefault) ∧
    emit eDefault 5 (some (.obj [("anyOf", .arr [.obj [("type", .str "string")],
      .obj [("type", .str "string")]])])) = some ("str", eDefault) := by
  constructor
  · have h := c8_union_dedup_collapse eDefault 3
      [("oneOf", .arr [.obj [("type", .str "string")], .obj [("type", .str "string")]])]
      [.obj [("type", .str "string")], .obj [("type", .str "string")]]
      (by decide) (by decide) (Or.inl (by decide)) (by decide)
    exact h.1.trans (by decide)
  · have h := c8_union_dedup_collapse eDefault 3
      [("anyOf", .arr [.obj [("type", .str "string")], .obj [("type", .str "string")]])]
      [.obj [("type", .str "string")], .obj [("type", .str "string")]]
      (by decide) (by decide) (Or.inr ⟨by decide, by decide⟩) (by decide)
    exact h.1.trans (by decide)

/-! ### C2: allOf handling in the type compiler -/

/-- C2 counterexample: on the specification's own example — `allOf` of
`{"type": "object", "properties": {"id": int}, "required": ["id"]}` and
`{"type": "object", "properties": {"name": str}, "required": ["name"]}` —
`TypeEmitter.emit` returns the generic map expression `dict[str, object]`,
identical to its output when both members carry no properties at all, and
that output mentions neither `id` nor `name`. The claimed single structural
type whose properties are the union of the members' properties is not
produced by `TypeEmitter.emit` (the structural merge lives in the models
emitter, `generation/models.py`). -/
theorem c2_allof_counterexample :
    emit eDefault 5 (some (.obj [("allOf", .arr [
      .obj [("type", .str "object"),
            ("properties", .obj [("id", .obj [("type", .str "integer")])]),
            ("required", .arr [.str "id"])],
      .obj [("type", .str "object"),
            ("properties", .obj [("name", .obj [("type", .str "string")])]),
            ("required", .arr [.str "name"])]])])) =
      some ("dict[str, object]", eDefault) ∧
    emit eDefault 5 (some (.obj [("allOf", .arr [.obj [("type", .str "object")],
      .obj [("type", .str "object")]])])) = some ("dict[str, object]", eDefault) ∧
    strContains "dict[str, object]" "id" = false ∧
    strContains "dict[str, object]" "name" = false := by
  decide

/-- C2 (amended): for an `allOf` schema node (with no `$ref`, no schema-name
stamp, and no truthy `oneOf`/`anyOf`) at least one of whose members is an
object-type schema, `TypeEmitter.emit` returns the generic map expression
`dict[str, object]`, leaving the emitter state unchanged; the members'
properties and required sets are not merged by this function. -/
theorem c2_allof_fallback (e : TypeEmitter) (fuel : Nat)
    (fields : List (String × Json)) (items : List Json)
    (href : lookupAssoc fields "$ref" = none)
    (hname : schemaNameOf fields = none)
    (honeB : branchVal fields "oneOf" = none)
    (hanyB : branchVal fields "anyOf" = none)
    (hall : lookupAssoc fields "allOf" = some (.arr items))
    (hne : items ≠ [])
    (hobj : ∃ it ∈ items, typeIsObject it = true) :
    emit e (fuel + 2) (some (.obj fields)) = some ("dict[str, object]", e) := by
  have hb : branchVal fields "allOf" = some (.arr items) := by
    simp [branchVal, hall, truthy_arr_of_ne_nil hne]
  obtain ⟨it, hmem, hto⟩ := hobj
  have hfm : it ∈ items.filter typeIsObject := List.mem_filter.mpr ⟨hmem, hto⟩
  have hfe : (items.filter typeIsObject).isEmpty = false := by
    cases hcase : items.filter typeIsObject with
    | nil => rw [hcase] at hfm; simp at hfm
    | cons a l => rfl
  simp only [emit, href, hname, honeB, hanyB, hb, pyElems, emitAllOf, hfe]
  simp

/-- C2 witness: the amended fallback at the specification's example. -/
theorem c2_allof_fallback_witness :
    emit eDefault 5 (some (.obj [("allOf", .arr [
      .obj [("type", .str "object"),
            ("properties", .obj [("id", .obj [("type", .str "integer")])]),
            ("required", .arr [.str "id"])],
      .obj [("type", .str "object"),
            ("properties", .obj [("name", .obj [("type", .str "string")])]),
            ("required", .arr [.str "name"])]])])) =
      some ("dict[str, object]", eDefault) := by
  exact c2_allof_fallback eDefault 3
    [("allOf", .arr [
      .obj [("type", .str "object"),
            ("properties", .obj [("id", .obj [("type", .str "integer")])]),
            ("required", .arr [.str "id"])],
      .obj [("type", .str "object"),
            ("properties", .obj [("name", .obj [("type", .str "string")])]),
            ("required", .arr [.str "name"])]])]
    [.obj [("type", .str "object"),
           ("properties", .obj [("id", .obj [("type", .str "integer")])]),
           ("required", .arr [.str "id"])],
     .obj [("type", .str "object"),
           ("properties", .obj [("name", .obj [("type", .str "string")])]),
           ("required", .arr [.str "name"])]]
    (by decide) (by decide) (by decide) (by decide) (by decide) (by decide)
    ⟨.obj [("type", .str "object"),
           ("properties", .obj [("id", .obj [("type", .str "integer")])]),
           ("required", .arr [.str "id"])], by decide, by decide⟩

/-! ### C3: enum emission -/

/-- C3 counterexample: on `{"enum": ["a", "a"]}` `TypeEmitter.emit` returns
`Literal['a', 'a']`, keeping the duplicate value; the claimed
duplicate-elimination would give `Literal['a']`, a different string. -/
theorem c3_enum_counterexample :
    emit eDefault 5 (some (.obj [("enum", .arr [.str "a", .str "a"])])) =
      some ("Literal['a', 'a']", eDefault.addImport "Literal") ∧
    "Literal['a', 'a']" ≠ "Literal['a']" := by
  decide

/-- C3 (amended): for a schema node with a non-empty `enum` list (and no
`$ref`, schema-name stamp, or truthy `oneOf`/`anyOf`/`allOf`),
`TypeEmitter.emit` returns the finite literal type over exactly the enum
values in their original order, one `Literal` arm per enum entry with
duplicates preserved (no deduplication), recording the `Literal` import. -/
theorem c3_enum_literal (e : TypeEmitter) (fuel : Nat)
    (fields : List (String × Json)) (vs : List Json)
    (href : lookupAssoc fields "$ref" = none)
    (hname : schemaNameOf fields = none)
    (honeB : branchVal fields "oneOf" = none)
    (hanyB : branchVal fields "anyOf" = none)
    (hallB : branchVal fields "allOf" = none)
    (henum : lookupAssoc fields "enum" = some (.arr vs))
    (hne : vs ≠ []) :
    emit e (fuel + 1) (some (.obj fields)) =
      some ("Literal[" ++ joinWithSep ", " (vs.map pyRepr) ++ "]", e.addImport "Literal") ∧
    (vs.map pyRepr).length = vs.length := by
  have hb : branchVal fields "enum" = some (.arr vs) := by
    simp [branchVal, henum, truthy_arr_of_ne_nil hne]
  constructor
  · simp only [emit, href, hname, honeB, hanyB, hallB, hb, pyElems]
  · simp

/-- C3 witness: the amended enum emission at the duplicate example. -/
theorem c3_enum_literal_witness :
    emit eDefault 5 (some (.obj [("enum", .arr [.str "a", .str "a"])])) =
      some ("Literal['a', 'a']", eDefault.addImport "Literal") := by
  have h := c3_enum_literal eDefault 4 [("enum", .arr [.str "a", .str "a"])]
    [.str "a", .str "a"] (by decide) (by decide) (by decide) (by decide) (by decide)
    (by decide) (by decide)
  exact h.1.trans (by decide)

/-! ## IR builder: `ir.py` -/

structure MediaTypeIR where
  contentType : String
  schema : Option Json
deriving Repr, DecidableEq

/-- `ParameterIR`. The dataclass declares `name`/`location` as `str`, but the
builder stores whatever JSON value `param.get(...)` produced; the model keeps
the dynamic value. -/
structure ParameterIR where
  name : Json
  location : Json
  required : Bool
  schema : Option Json
  content : List MediaTypeIR
  style : Option Json
  explode : Option Json
  default : Option Json
deriving Repr, DecidableEq

structure RequestBodyIR where
  required : Bool
  content : List MediaTypeIR
deriving Repr, DecidableEq

structure ResponseIR where
  status : String
  description : Option Json
  content : List MediaTypeIR
deriving Repr, DecidableEq

structure OperationIR where
  method : String
  path : String
  operationId : Option Json
  parameters : List ParameterIR
  requestBody : Option RequestBodyIR
  responses : List ResponseIR
  extensions : List (String × Json)
deriving Repr, DecidableEq

structure SchemaIR where
  name : String
  schema : Json
deriving Repr, DecidableEq

structure IRDocument where
  schemas : List SchemaIR
  operations : List OperationIR
deriving Repr, DecidableEq

/-- `_build_media_types`: one `MediaTypeIR` per content-type entry, in map
order. -/
def buildMediaTypes (content : Json) : List MediaTypeIR :=
  (objFieldsD content).map fun kv => { contentType := kv.1, schema := pyGet kv.2 "schema" }

/-- `_build_parameter`. -/
def buildParameter (param : Json) : ParameterIR :=
  { name := pyGetD param "name" (.str "")
    location := pyGetD param "in" (.str "")
    required := truthy (pyGetD param "required" (.bool false))
    schema := pyGet param "schema"
    content := buildMediaTypes (pyGetD param "content" (.obj []))
    style := pyGet param "style"
    explode := pyGet param "explode"
    default := pyGet param "default" }

/-- The key equality of the `merged` dictionary of `_merge_parameters`,
whose keys are `(name, location)` pairs of JSON values. -/
def keyBeq (a b : Json × Json) : Bool := Json.beq a.1 b.1 && Json.beq a.2 b.2

def lookupParamMap : List ((Json × Json) × Json) → (Json × Json) → Option Json
  | [], _ => none
  | (k, v) :: rest, key => if keyBeq k key then some v else lookupParamMap rest key

/-- `merged[(name, location)] = param`: Python dictionary assignment keeps
the position of an existing key. -/
def setParamMap : List ((Json × Json) × Json) → (Json × Json) → Json → List ((Json × Json) × Json)
  | [], key, v => [(key, v)]
  | (k, w) :: rest, key, v =>
    if keyBeq k key then (k, v) :: rest else (k, w) :: setParamMap rest key v

/-- The `(name, location)` pair a parameter is merged under:
`param.get("name")` and `param.get("in")`, absent keys giving `None`. -/
def paramKey (p : Json) : Json × Json :=
  (pyGetD p "name" .null, pyGetD p "in" .null)

/-- The keep condition of the `_merge_parameters` loop:
`if not name or not location: continue` keeps exactly the parameters whose
`name` and `in` values are both truthy. -/
def goodParam (p : Json) : Bool :=
  truthy (pyGetD p "name" .null) && truthy (pyGetD p "in" .null)

/-- The loop of `_merge_parameters` over `common + specific`: skip a
parameter whose `name` or `in` is missing or falsy, otherwise overwrite the
`(name, location)` slot. -/
def mergeParamsAux : List Json → List ((Json × Json) × Json) → List ((Json × Json) × Json)
  | [], merged => merged
  | param :: rest, merged =>
    if goodParam param then
      mergeParamsAux rest (setParamMap merged (paramKey param) param)
    else
      mergeParamsAux rest merged

/-- `_merge_parameters`. -/
def mergeParameters (common specific : List Json) : List ParameterIR :=
  (mergeParamsAux (common ++ specific) []).map fun kv => buildParameter kv.2

/-- `_build_request_body`: `None` for an absent or falsy request body. -/
def buildRequestBody (rb : Option Json) : Option RequestBodyIR :=
  match rb with
  | none => none
  | some r =>
    if truthy r then
      some { required := truthy (pyGetD r "required" (.bool false))
             content := buildMediaTypes (pyGetD r "content" (.obj [])) }
    else none

/-- `_build_responses`: one `ResponseIR` per status entry, in map order. -/
def buildResponses (responses : Json) : List ResponseIR :=
  (objFieldsD responses).map fun kv =>
    { status := kv.1
      description := pyGet kv.2 "description"
      content := buildMediaTypes (pyGetD kv.2 "content" (.obj [])) }

/-- `_extract_extensions`: the operation keys starting with `x-clientify-`. -/
def extractExtensions (operation : Json) : List (String × Json) :=
  (objFieldsD operation).filter fun kv => strStartsWith kv.1 "x-clientify-"

/-- The fixed method tuple iterated by `_build_path_operations`. -/
def methodOrder : List String :=
  ["get", "put", "post", "delete", "options", "head", "patch", "trace"]

/-- The body of `_build_path_operations` for one method: `None` when the
method is absent or its operation value is falsy (`if not operation:
continue`). -/
def buildOperation (path : String) (item : Json) (commonParams : List Json)
    (method : String) : Option OperationIR :=
  match pyGet item method with
  | none => none
  | some operation =>
    if truthy operation then
      some
        { method := method
          path := path
          operationId := pyGet operation "operationId"
          parameters := mergeParameters commonParams
            (pyListD (pyGetD operation "parameters" (.arr [])))
          requestBody := buildRequestBody (pyGet operation "requestBody")
          responses := buildResponses (pyGetD operation "responses" (.obj []))
          extensions := extractExtensions operation }
    else none

/-- `_build_path_operations`: iterate the fixed method tuple, yielding one
`OperationIR` per present (truthy) method. -/
def buildPathOperations (path : String) (item : Json) : List OperationIR :=
  let commonParams := pyListD (pyGetD item "parameters" (.arr []))
  methodOrder.filterMap (buildOperation path item commonParams)

/-- `build_ir`. -/
def buildIR (document : Json) : IRDocument :=
  let components := pyGetD document "components" (.obj [])
  { schemas := (objFieldsD (pyGetD components "schemas" (.obj []))).map fun kv =>
      { name := kv.1, schema := kv.2 }
    operations := ((objFieldsD (pyGetD document "paths" (.obj []))).map fun kv =>
      buildPathOperations kv.1 kv.2).flatten }


/-- The last parameter of a list that is kept by the loop and carries the
given `(name, location)` key — the winner of Python dictionary overwriting. -/
def lastValidParam (k : Json × Json) : List Json → Option Json
  | [] => none
  | p :: rest =>
    match lastValidParam k rest with
    | some q => some q
    | none => if goodParam p && keyBeq (paramKey p) k then some p else none

/-! ### General facts about the parameter merge -/

theorem keyBeq_iff (a b : Json × Json) : keyBeq a b = true ↔ a = b := by
  obtain ⟨a1, a2⟩ := a
  obtain ⟨b1, b2⟩ := b
  simp [keyBeq, Bool.and_eq_true, Json.beq_iff, Prod.ext_iff]

theorem lookupParamMap_none_not_mem (l : List ((Json × Json) × Json)) (k : Json × Json)
    (h : lookupParamMap l k = none) : k ∉ l.map Prod.fst := by
  induction l with
  | nil => simp
  | cons kv rest ih =>
    obtain ⟨k0, v0⟩ := kv
    by_cases hk : keyBeq k0 k = true
    · rw [lookupParamMap, if_pos hk] at h
      simp at h
    · rw [lookupParamMap, if_neg hk] at h
      simp only [List.map_cons, List.mem_cons]
      rintro (rfl | hmem)
      · exact hk ((keyBeq_iff k k).mpr rfl)
      · exact ih h hmem

theorem setParamMap_map_fst (l : List ((Json × Json) × Json)) (k : Json × Json) (p : Json) :
    (setParamMap l k p).map Prod.fst =
      if (lookupParamMap l k).isSome then l.map Prod.fst else l.map Prod.fst ++ [k] := by
  induction l with
  | nil => simp [setParamMap, lookupParamMap]
  | cons kv rest ih =>
    obtain ⟨k0, v0⟩ := kv
    by_cases hk : keyBeq k0 k = true
    · simp [setParamMap, lookupParamMap, if_pos hk]
    · simp only [setParamMap, lookupParamMap, if_neg hk, List.map_cons, ih]
      by_cases hs : (lookupParamMap rest k).isSome
      · simp [hs]
      · simp [hs]

theorem setParamMap_nodup (l : List ((Json × Json) × Json)) (k : Json × Json) (p : Json)
    (h : (l.map Prod.fst).Nodup) : ((setParamMap l k p).map Prod.fst).Nodup := by
  rw [setParamMap_map_fst]
  cases hs : lookupParamMap l k with
  | some v => simpa using h
  | none =>
    have hnm := lookupParamMap_none_not_mem l k hs
    simp [List.nodup_append, h, hnm]

/-- Every binding of the parameter map satisfies: the key is the `(name,
location)` pair of the stored parameter, and both components are truthy. -/
def ParamMapOK (l : List ((Json × Json) × Json)) : Prop :=
  ∀ k p, (k, p) ∈ l → paramKey p = k ∧ goodParam p = true

theorem setParamMap_ok (l : List ((Json × Json) × Json)) (k : Json × Json) (p : Json)
    (h : ParamMapOK l) (hp : paramKey p = k) (hg : goodParam p = true) :
    ParamMapOK (setParamMap l k p) := by
  induction l with
  | nil =>
    intro k1 p1 hmem
    simp only [setParamMap, List.mem_singleton, Prod.mk.injEq] at hmem
    obtain ⟨rfl, rfl⟩ := hmem
    exact ⟨hp, hg⟩
  | cons kv rest ih =>
    obtain ⟨k0, v0⟩ := kv
    have htail : ParamMapOK rest := fun k1 p1 hmem => h k1 p1 (List.mem_cons_of_mem _ hmem)
    by_cases hk : keyBeq k0 k = true
    · intro k1 p1 hmem
      rw [setParamMap, if_pos hk] at hmem
      rcases List.mem_cons.mp hmem with heq | hmem
      · have hpair : k1 = k0 ∧ p1 = p := by simpa [Prod.ext_iff] using heq
        obtain ⟨rfl, rfl⟩ := hpair
        have hk0 : k1 = k := (keyBeq_iff k1 k).mp hk
        subst hk0
        exact ⟨hp, hg⟩
      · exact htail k1 p1 hmem
    · intro k1 p1 hmem
      rw [setParamMap, if_neg hk] at hmem
      rcases List.mem_cons.mp hmem with heq | hmem
      · exact h k1 p1 (List.mem_cons.mpr (Or.inl heq))
      · exact ih htail k1 p1 hmem

theorem mergeParamsAux_ok (ps : List Json) :
    ∀ acc, ParamMapOK acc → ((acc.map Prod.fst).Nodup) →
      ParamMapOK (mergeParamsAux ps acc) ∧ ((mergeParamsAux ps acc).map Prod.fst).Nodup := by
  induction ps with
  | nil => intro acc h1 h2; exact ⟨h1, h2⟩
  | cons p rest ih =>
    intro acc h1 h2
    by_cases hg : goodParam p = true
    · rw [mergeParamsAux, if_pos hg]
      exact ih (setParamMap acc (paramKey p) p)
        (setParamMap_ok acc _ p h1 rfl hg) (setParamMap_nodup acc _ p h2)
    · rw [mergeParamsAux, if_neg hg]
      exact ih acc h1 h2

theorem lookup_setParamMap (l : List ((Json × Json) × Json)) (k key : Json × Json) (p : Json) :
    lookupParamMap (setParamMap l k p) key =
      if keyBeq k key then some p else lookupParamMap l key := by
  induction l with
  | nil => simp [setParamMap, lookupParamMap]
  | cons kv rest ih =>
    obtain ⟨k0, v0⟩ := kv
    by_cases hk : keyBeq k0 k = true
    · have hk0 : k0 = k := (keyBeq_iff k0 k).mp hk
      subst hk0
      by_cases hkey : keyBeq k0 key = true
      · simp [setParamMap, lookupParamMap, if_pos hk, if_pos hkey, hkey]
      · simp [setParamMap, lookupParamMap, if_pos hk, if_neg hkey, hkey]
    · by_cases hkey : keyBeq k0 key = true
      · have hkk : keyBeq k key = false := by
          cases hc : keyBeq k key with
          | false => rfl
          | true =>
            have h1 : k0 = key := (keyBeq_iff k0 key).mp hkey
            have h2 : k = key := (keyBeq_iff k key).mp hc
            exact absurd ((keyBeq_iff k0 k).mpr (h1.trans h2.symm)) hk
        simp [setParamMap, lookupParamMap, if_neg hk, if_pos hkey, hkey, hkk]
      · simp [setParamMap, lookupParamMap, if_neg hk, if_neg hkey, hkey, ih]

theorem lookup_mergeParamsAux (ps : List Json) :
    ∀ (acc : List ((Json × Json) × Json)) (k : Json × Json),
      lookupParamMap (mergeParamsAux ps acc) k =
        match lastValidParam k ps with
        | some q => some q
        | none => lookupParamMap acc k := by
  induction ps with
  | nil => intro acc k; simp [mergeParamsAux, lastValidParam]
  | cons p rest ih =>
    intro acc k
    by_cases hg : goodParam p = true
    · rw [mergeParamsAux, if_pos hg, ih]
      cases hrest : lastValidParam k rest with
      | some q => simp [lastValidParam, hrest]
      | none =>
        simp only [lastValidParam, hrest]
        rw [lookup_setParamMap]
        by_cases hpk : keyBeq (paramKey p) k = true
        · simp [hpk, hg]
        · simp [hpk, hg, Bool.eq_false_iff.mpr hpk]
    · rw [mergeParamsAux, if_neg hg, ih]
      have hgf : goodParam p = false := Bool.eq_false_iff.mpr hg
      cases hrest : lastValidParam k rest with
      | some q => simp [lastValidParam, hrest]
      | none => simp [lastValidParam, hrest, hgf]

theorem lastValidParam_append (k : Json × Json) (xs ys : List Json) :
    lastValidParam k (xs ++ ys) =
      match lastValidParam k ys with
      | some q => some q
      | none => lastValidParam k xs := by
  induction xs with
  | nil =>
    simp only [List.nil_append]
    cases h : lastValidParam k ys with
    | some q => simp
    | none => simp [lastValidParam]
  | cons x rest ih =>
    rw [List.cons_append, lastValidParam, ih, lastValidParam]
    cases hys : lastValidParam k ys with
    | some q => simp
    | none =>
      cases hrest : lastValidParam k rest with
      | some q => simp
      | none => simp

theorem lookupParamMap_mem (l : List ((Json × Json) × Json)) (k : Json × Json) (p : Json)
    (h : lookupParamMap l k = some p) : (k, p) ∈ l := by
  induction l with
  | nil => simp [lookupParamMap] at h
  | cons kv rest ih =>
    obtain ⟨k0, v0⟩ := kv
    by_cases hk : keyBeq k0 k = true
    · rw [lookupParamMap, if_pos hk] at h
      obtain rfl : v0 = p := by simpa using h
      have hk0 : k0 = k := (keyBeq_iff k0 k).mp hk
      subst hk0
      exact List.mem_cons_self _ _
    · rw [lookupParamMap, if_neg hk] at h
      exact List.mem_cons_of_mem _ (ih h)

theorem buildParameter_key (p : Json) (hg : goodParam p = true) :
    (buildParameter p).name = (paramKey p).1 ∧ (buildParameter p).location = (paramKey p).2 := by
  have h1 := hg
  simp only [goodParam, Bool.and_eq_true] at h1
  obtain ⟨hn, hi⟩ := h1
  constructor
  · cases hv : pyGet p "name" with
    | none => rw [pyGetD, hv] at hn; simp [truthy] at hn
    | some v => simp [buildParameter, paramKey, pyGetD, hv]
  · cases hv : pyGet p "in" with
    | none => rw [pyGetD, hv] at hi; simp [truthy] at hi
    | some v => simp [buildParameter, paramKey, pyGetD, hv]

theorem mergeParamsAux_filter (ps : List Json) :
    ∀ acc, mergeParamsAux ps acc = mergeParamsAux (ps.filter goodParam) acc := by
  induction ps with
  | nil => intro acc; rfl
  | cons p rest ih =>
    intro acc
    cases hg : goodParam p with
    | true => rw [mergeParamsAux, if_pos hg, List.filter_cons_of_pos hg, mergeParamsAux,
        if_pos hg, ih]
    | false => rw [mergeParamsAux, if_neg (by simp [hg]), List.filter_cons_of_neg (by simp [hg]),
        ih]

/-! ### C6: canonical method ordering -/

/-- C6: for every path item, the methods of the emitted `OperationIR` list
are exactly the canonical method tuple filtered to the methods present (with
a truthy operation value) — so emission follows the fixed canonical order
`get, put, post, delete, options, head, patch, trace` no matter where the
methods sit in the document; in particular a path item written in document
order `post, get, delete` yields operations ordered `get, post, delete`. -/
theorem c6_method_order :
    (∀ (path : String) (item : Json),
      (buildPathOperations path item).map OperationIR.method =
        methodOrder.filter (fun m => truthy (pyGetD item m .null))) ∧
    (buildPathOperations "/x" (.obj [
        ("post", .obj [("responses", .obj [("200", .obj [("description", .str "ok")])])]),
        ("get", .obj [("responses", .obj [("200", .obj [("description", .str "ok")])])]),
        ("delete", .obj [("responses", .obj [("200", .obj [("description", .str "ok")])])])])).map
      OperationIR.method = ["get", "post", "delete"] := by
  constructor
  · intro path item
    rw [buildPathOperations]
    generalize methodOrder = ms
    induction ms with
    | nil => rfl
    | cons m rest ih =>
      rw [List.filterMap_cons, List.filter_cons]
      cases hv : pyGet item m with
      | none =>
        have : truthy (pyGetD item m .null) = false := by simp [pyGetD, hv, truthy]
        rw [buildOperation, hv]
        simpa [this] using ih
      | some v =>
        have hd : pyGetD item m .null = v := by simp [pyGetD, hv]
        cases ht : truthy v with
        | false =>
          rw [buildOperation, hv]
          simpa [hd, ht] using ih
        | true =>
          rw [buildOperation, hv]
          simpa [hd, ht] using ih
  · decide

/-! ### C7: parameter override and (name, location) uniqueness -/

/-- C7: the `(name, location)` pairs of the merged parameter list are
pairwise distinct; the merged map holds, at each key, the last loop-kept
parameter with that key — so an operation-level parameter beats every
path-level parameter with the same `(name, location)`, and only that
parameter's fields reach the single resulting `ParameterIR`. -/
theorem c7_parameter_override :
    (∀ common specific : List Json,
      ((mergeParameters common specific).map (fun q => (q.name, q.location))).Nodup) ∧
    (∀ (common specific : List Json) (k : Json × Json),
      lookupParamMap (mergeParamsAux (common ++ specific) []) k =
        match lastValidParam k specific with
        | some q => some q
        | none => lastValidParam k common) ∧
    (∀ (common specific : List Json) (k : Json × Json) (p : Json),
      lookupParamMap (mergeParamsAux (common ++ specific) []) k = some p →
        buildParameter p ∈ mergeParameters common specific) := by
  refine ⟨?_, ?_, ?_⟩
  · intro common specific
    obtain ⟨hok, hnd⟩ := mergeParamsAux_ok (common ++ specific) []
      (fun k p h => absurd h (List.not_mem_nil _)) List.nodup_nil
    rw [mergeParameters, List.map_map]
    have hmaps :
        ((mergeParamsAux (common ++ specific) []).map
          ((fun q : ParameterIR => (q.name, q.location)) ∘ fun kv => buildParameter kv.2)) =
        (mergeParamsAux (common ++ specific) []).map Prod.fst := by
      apply List.map_congr_left
      intro kv hmem
      obtain ⟨hkey, hg⟩ := hok kv.1 kv.2 hmem
      obtain ⟨h1, h2⟩ := buildParameter_key kv.2 hg
      simp [Function.comp, h1, h2, hkey]
    rw [hmaps]
    exact hnd
  · intro common specific k
    rw [lookup_mergeParamsAux, lastValidParam_append]
    cases lastValidParam k specific <;> cases lastValidParam k common <;>
      simp [lookupParamMap]
  · intro common specific k p h
    exact List.mem_map_of_mem (fun kv => buildParameter kv.2) (lookupParamMap_mem _ _ _ h)

/-- C7 witness: a path-level `(q, query, required=false)` overridden by an
operation-level `(q, query, required=true)` yields exactly one
`ParameterIR`, with `required = true`. -/
theorem c7_parameter_override_witness :
    ((mergeParameters
        [.obj [("name", .str "q"), ("in", .str "query"), ("required", .bool false)]]
        [.obj [("name", .str "q"), ("in", .str "query"), ("required", .bool true)]]).map
      (fun q => (q.name, q.location))).Nodup ∧
    mergeParameters
        [.obj [("name", .str "q"), ("in", .str "query"), ("required", .bool false)]]
        [.obj [("name", .str "q"), ("in", .str "query"), ("required", .bool true)]] =
      [{ name := .str "q", location := .str "query", required := true, schema := none,
         content := [], style := none, explode := none, default := none }] :=
  ⟨c7_parameter_override.1 _ _, by decide⟩

/-! ### C10: parameters with missing or empty name/location -/

/-- C10: a parameter whose `name` or `in` value is missing or falsy is
skipped by the merge loop, so the merged output equals the output on the
lists with such parameters filtered away — it contributes no `ParameterIR`
and raises no error; in particular an absent key or an empty-string value
fails the keep condition. -/
theorem c10_invalid_parameters_skipped :
    (∀ common specific : List Json,
      mergeParameters common specific =
        mergeParameters (common.filter goodParam) (specific.filter goodParam)) ∧
    (∀ p : Json,
      pyGet p "name" = none ∨ pyGet p "name" = some (.str "") ∨
        pyGet p "in" = none ∨ pyGet p "in" = some (.str "") →
      goodParam p = false) := by
  constructor
  · intro common specific
    rw [mergeParameters, mergeParameters, mergeParamsAux_filter, List.filter_append]
  · intro p h
    rcases h with h | h | h | h
    · simp [goodParam, pyGetD, h, truthy]
    · simp [goodParam, pyGetD, h, truthy]
    · simp [goodParam, pyGetD, h, truthy]
    · simp [goodParam, pyGetD, h, truthy]

/-- C10 witness: removing a parameter with an empty `name` does not change
the merge output. -/
theorem c10_invalid_parameters_skipped_witness :
    mergeParameters
        [.obj [("name", .str "q"), ("in", .str "query")],
         .obj [("name", .str ""), ("in", .str "query")]] [] =
      mergeParameters [.obj [("name", .str "q"), ("in", .str "query")]] [] := by
  have h := c10_invalid_parameters_skipped.1
    [.obj [("name", .str "q"), ("in", .str "query")],
     .obj [("name", .str ""), ("in", .str "query")]] []
  exact h.trans (by decide)

/-! ## Reference resolver: `loader.py` -/

/-- The failure cases of resolution. `readFailure` stands for the exception
propagating out of `Path.read_text`/parsing when an external file is missing
(the loader does not catch it); every other constructor is a `SpecError`
raise site of `loader.py`. -/
inductive SpecError where
  | refMustBeString
  | refTargetNotObject
  | unsupportedFragment (frag : String)
  | unresolvablePointer (frag : String)
  | docNotObject (path : String)
  | readFailure (path : String)
deriving Repr, DecidableEq

/-- A resolution outcome: a program error, or exhaustion of the model's fuel
(the Python recursion has no such bound; theorems always supply enough). -/
inductive RErr where
  | spec (e : SpecError)
  | outOfFuel
deriving Repr, DecidableEq

/-- The per-resolution mutable state: `_cache` (ref string → pre-recursion
resolved value) and `_doc_cache` (absolute path → loaded document). -/
structure RState where
  cache : List (String × Json)
  docCache : List (String × Json)
deriving Repr, DecidableEq

/-- `RefResolver`: the document, the optional base path, and the file
system collaborator. `fs` stands for `read_text` + JSON/YAML parsing: the
parsed value of a path, or `none` when reading fails. -/
structure RefResolver where
  document : Json
  basePath : Option String
  fs : String → Option Json

/-- `(current_base / path_part).resolve()`, modelled as plain joining;
no claim depends on `..`/symlink normalisation. -/
def joinPath (base rel : String) : String := base ++ "/" ++ rel

/-- `path.parent`: drop the last `/`-separated component. -/
def parentDir (p : String) : String :=
  joinWithSep "/" ((splitOnChar '/' p).dropLast)

/-- JSON-pointer unescaping of one segment:
`part.replace("~1", "/").replace("~0", "~")`. -/
def unescapeSegment (part : String) : String :=
  strReplacePair '~' '0' '~' (strReplacePair '~' '1' '/' part)

/-- The walk of `_resolve_pointer` over the `/`-separated segments. -/
def resolvePointerAux (fragment : String) : List String → Json → Except SpecError Json
  | [], current => .ok current
  | part :: rest, current =>
    let key := unescapeSegment part
    match current with
    | .obj fields =>
      match lookupAssoc fields key with
      | some v => resolvePointerAux fragment rest v
      | none => .error (.unresolvablePointer fragment)
    | _ => .error (.unresolvablePointer fragment)

/-- `_resolve_pointer`. -/
def resolvePointer (document : Json) (fragment : String) : Except SpecError Json :=
  if fragment = "" ∨ fragment = "#" then .ok document
  else
    let pointer := if strStartsWith fragment "/" then String.mk (fragment.data.drop 1) else fragment
    resolvePointerAux fragment (splitOnChar '/' pointer) document

/-- The provenance stamp of `_resolve_ref` step 5: a local
`#/components/schemas/<Name>` target that is a dictionary gets
`x-clientify-schema-name` set (if absent, appended at the end, per
`setdefault`). -/
def stampSchemaName (resolved : Json) (ref : String) : Json :=
  if strStartsWith ref "#/components/schemas/" then
    match resolved with
    | .obj fields =>
      if hasKey fields "x-clientify-schema-name" then .obj fields
      else .obj (fields ++ [("x-clientify-schema-name", .str (lastComponent ref))])
    | other => other
  else resolved

/-- `_load_doc`: consult the per-pass document cache, else read and parse,
requiring a dictionary. -/
def loadDoc (r : RefResolver) (path : String) (st : RState) :
    Except SpecError (Json × RState) :=
  match lookupAssoc st.docCache path with
  | some d => .ok (d, st)
  | none =>
    match r.fs path with
    | none => .error (.readFailure path)
    | some data =>
      match data with
      | .obj fields =>
        .ok (.obj fields, { st with docCache := setAssoc st.docCache path (.obj fields) })
      | _ => .error (.docNotObject path)

/-- Steps 2–3 of the ref algorithm: an empty file part targets the root
document with the base unchanged; a non-empty one loads the file resolved
against the current base and moves the base to that file's directory. -/
def loadTarget (r : RefResolver) (pathPart : String) (currentBase : String) (st : RState) :
    Except SpecError (Json × String × RState) :=
  if pathPart = "" then .ok (r.document, currentBase, st)
  else
    let targetPath := joinPath currentBase pathPart
    match loadDoc r targetPath st with
    | .ok (doc, st2) => .ok (doc, parentDir targetPath, st2)
    | .error e => .error e

mutual
/-- `RefResolver._resolve_object`. Fuel decreases on every recursive call. -/
def resolveObject (r : RefResolver) (fuel : Nat) (obj : Json) (currentBase : String)
    (st : RState) : Except RErr (Json × RState) :=
  match fuel with
  | 0 => .error .outOfFuel
  | fuel + 1 =>
    match obj with
    | .arr items =>
      match resolveList r fuel items currentBase st with
      | .ok (rs, st2) => .ok (.arr rs, st2)
      | .error e => .error e
    | .obj fields =>
      match lookupAssoc fields "$ref" with
      | some (.str ref) =>
        match resolveRef r fuel ref currentBase st with
        | .error e => .error e
        | .ok (resolved, st2) =>
          if fields.length = 1 then .ok (resolved, st2)
          else
            match resolved with
            | .obj targetFields => resolveMerge r fuel fields targetFields currentBase st2
            | _ => .error (.spec .refTargetNotObject)
      | some _ => .error (.spec .refMustBeString)
      | none =>
        match resolveFields r fuel fields currentBase st with
        | .ok (rs, st2) => .ok (.obj rs, st2)
        | .error e => .error e
    | other => .ok (other, st)

/-- The list comprehension of `_resolve_object` over a list, in order. -/
def resolveList (r : RefResolver) (fuel : Nat) (items : List Json) (currentBase : String)
    (st : RState) : Except RErr (List Json × RState) :=
  match fuel with
  | 0 => .error .outOfFuel
  | fuel + 1 =>
    match items with
    | [] => .ok ([], st)
    | x :: xs =>
      match resolveObject r fuel x currentBase st with
      | .ok (rx, st2) =>
        match resolveList r fuel xs currentBase st2 with
        | .ok (rxs, st3) => .ok (rx :: rxs, st3)
        | .error e => .error e
      | .error e => .error e

/-- The dictionary comprehension of `_resolve_object` over a ref-free
dictionary, in key order. -/
def resolveFields (r : RefResolver) (fuel : Nat) (fields : List (String × Json))
    (currentBase : String) (st : RState) : Except RErr (List (String × Json) × RState) :=
  match fuel with
  | 0 => .error .outOfFuel
  | fuel + 1 =>
    match fields with
    | [] => .ok ([], st)
    | (k, v) :: rest =>
      match resolveObject r fuel v currentBase st with
      | .ok (rv, st2) =>
        match resolveFields r fuel rest currentBase st2 with
        | .ok (rs, st3) => .ok ((k, rv) :: rs, st3)
        | .error e => .error e
      | .error e => .error e

/-- The sibling-merge loop of `_resolve_object`: starting from a deep copy
of the resolved target, set each non-`$ref` sibling key to its resolved
value, in original key order. -/
def resolveMerge (r : RefResolver) (fuel : Nat) (fields : List (String × Json))
    (merged : List (String × Json)) (currentBase : String) (st : RState) :
    Except RErr (Json × RState) :=
  match fuel with
  | 0 => .error .outOfFuel
  | fuel + 1 =>
    match fields with
    | [] => .ok (.obj merged, st)
    | (k, v) :: rest =>
      if k = "$ref" then resolveMerge r fuel rest merged currentBase st
      else
        match resolveObject r fuel v currentBase st with
        | .ok (rv, st2) => resolveMerge r fuel rest (setAssoc merged k rv) currentBase st2
        | .error e => .error e

/-- `RefResolver._resolve_ref`: cache hit returns the cached (pre-recursion)
value; otherwise split the ref, load the target document, check the
fragment, resolve the pointer, stamp a schema name, cache the value, and
only then recursively resolve it. -/
def resolveRef (r : RefResolver) (fuel : Nat) (ref : String) (currentBase : String)
    (st : RState) : Except RErr (Json × RState) :=
  match fuel with
  | 0 => .error .outOfFuel
  | fuel + 1 =>
    match lookupAssoc st.cache ref with
    | some cached => .ok (cached, st)
    | none =>
      match loadTarget r (urldefrag ref).1 currentBase st with
      | .error e => .error (.spec e)
      | .ok (targetDoc, baseForRef, st2) =>
        let frag := (urldefrag ref).2
        if frag ≠ "" ∧ strStartsWith frag "/" = false then
          .error (.spec (.unsupportedFragment frag))
        else
          match resolvePointer targetDoc frag with
          | .error e => .error (.spec e)
          | .ok raw =>
            let resolved := stampSchemaName raw ref
            resolveObject r fuel resolved baseForRef
              { st2 with cache := setAssoc st2.cache ref resolved }
end

/-- `RefResolver.resolve`: resolve the whole document from a fresh state,
with the working directory standing in for an absent base path. -/
def RefResolver.resolve (r : RefResolver) (cwd : String) (fuel : Nat) :
    Except RErr (Json × RState) :=
  resolveObject r fuel r.document (r.basePath.getD cwd) { cache := [], docCache := [] }

mutual
/-- Whether a `$ref` key occurs anywhere in the tree. -/
def hasRefKey : Json → Bool
  | .arr items => hasRefKeyList items
  | .obj fields => hasKey fields "$ref" || hasRefKeyFields fields
  | _ => false

def hasRefKeyList : List Json → Bool
  | [] => false
  | x :: xs => hasRefKey x || hasRefKeyList xs

def hasRefKeyFields : List (String × Json) → Bool
  | [] => false
  | kv :: xs => hasRefKey kv.2 || hasRefKeyFields xs
end

/-- Whether a successful resolution result still holds a `$ref` key. -/
def resultHasRefKey : Except RErr (Json × RState) → Bool
  | .ok (j, _) => hasRefKey j
  | .error _ => false

mutual
/-- A size measure on values: enough fuel for a ref-free walk. -/
def jsize : Json → Nat
  | .arr items => 1 + jsizeList items
  | .obj fields => 1 + jsizeFields fields
  | _ => 1

def jsizeList : List Json → Nat
  | [] => 1
  | x :: xs => 1 + jsize x + jsizeList xs

def jsizeFields : List (String × Json) → Nat
  | [] => 1
  | kv :: xs => 1 + jsize kv.2 + jsizeFields xs
end

deriving instance DecidableEq for Except

/-- The document of a successful resolution result (`null` on error). -/
def resultDoc : Except RErr (Json × RState) → Json
  | .ok (j, _) => j
  | .error _ => .null

/-! ### General facts about the resolver -/

theorem jsize_pos (j : Json) : 1 ≤ jsize j := by
  cases j <;> simp [jsize]

theorem jsizeList_pos (l : List Json) : 1 ≤ jsizeList l := by
  cases l <;> simp [jsizeList]
  omega

theorem jsizeFields_pos (l : List (String × Json)) : 1 ≤ jsizeFields l := by
  cases l <;> simp [jsizeFields]
  omega

theorem hasKey_false_lookup {fields : List (String × Json)} {key : String}
    (h : hasKey fields key = false) : lookupAssoc fields key = none := by
  cases hl : lookupAssoc fields key with
  | none => rfl
  | some v => rw [hasKey, hl] at h; simp at h

/-- A ref-free value resolves to itself with the state untouched, given fuel
at least its size: the three statements of the mutual recursion. -/
theorem resolveNoRefAll : ∀ fuel : Nat,
    (∀ (r : RefResolver) (obj : Json) (base : String) (st : RState),
      hasRefKey obj = false → jsize obj ≤ fuel →
      resolveObject r fuel obj base st = .ok (obj, st)) ∧
    (∀ (r : RefResolver) (items : List Json) (base : String) (st : RState),
      hasRefKeyList items = false → jsizeList items ≤ fuel →
      resolveList r fuel items base st = .ok (items, st)) ∧
    (∀ (r : RefResolver) (fields : List (String × Json)) (base : String) (st : RState),
      hasRefKeyFields fields = false → jsizeFields fields ≤ fuel →
      resolveFields r fuel fields base st = .ok (fields, st)) := by
  intro fuel
  induction fuel with
  | zero =>
    refine ⟨?_, ?_, ?_⟩
    · intro r obj base st h1 h2
      have := jsize_pos obj
      omega
    · intro r items base st h1 h2
      have := jsizeList_pos items
      omega
    · intro r fields base st h1 h2
      have := jsizeFields_pos fields
      omega
  | succ f ih =>
    obtain ⟨ihO, ihL, ihF⟩ := ih
    refine ⟨?_, ?_, ?_⟩
    · intro r obj base st h1 h2
      cases obj with
      | arr items =>
        simp only [hasRefKey] at h1
        simp only [jsize] at h2
        simp only [resolveObject]
        rw [ihL r items base st h1 (by omega)]
      | obj fields =>
        simp only [hasRefKey, Bool.or_eq_false_iff] at h1
        obtain ⟨hk, hf⟩ := h1
        simp only [jsize] at h2
        simp only [resolveObject, hasKey_false_lookup hk]
        rw [ihF r fields base st hf (by omega)]
      | null => simp [resolveObject]
      | bool b => simp [resolveObject]
      | num n => simp [resolveObject]
      | str s => simp [resolveObject]
    · intro r items base st h1 h2
      cases items with
      | nil => simp [resolveList]
      | cons x xs =>
        simp only [hasRefKeyList, Bool.or_eq_false_iff] at h1
        obtain ⟨hx, hxs⟩ := h1
        simp only [jsizeList] at h2
        have p1 := jsize_pos x
        have p2 := jsizeList_pos xs
        simp only [resolveList]
        rw [ihO r x base st hx (by omega)]
        dsimp only
        rw [ihL r xs base st hxs (by omega)]
    · intro r fields base st h1 h2
      cases fields with
      | nil => simp [resolveFields]
      | cons kv rest =>
        obtain ⟨k, v⟩ := kv
        simp only [hasRefKeyFields, Bool.or_eq_false_iff] at h1
        obtain ⟨hv, hrest⟩ := h1
        simp only [jsizeFields] at h2
        have p1 := jsize_pos v
        have p2 := jsizeFields_pos rest
        simp only [resolveFields]
        rw [ihO r v base st hv (by omega)]
        dsimp only
        rw [ihF r rest base st hrest (by omega)]

/-! ### C1: leftover `$ref` keys after resolution -/

/-- The C1 failing input: the same ref string `#/defs/T` is reachable from
two locations, and its target holds a further nested ref `#/defs/U`. -/
def c1doc : Json := .obj [
  ("openapi", .str "3.0.3"),
  ("a", .obj [("$ref", .str "#/defs/T")]),
  ("b", .obj [("$ref", .str "#/defs/T")]),
  ("defs", .obj [
    ("T", .obj [("inner", .obj [("$ref", .str "#/defs/U")])]),
    ("U", .obj [("type", .str "string")])])]

def c1resolver : RefResolver := { document := c1doc, basePath := none, fs := fun _ => none }

/-- C1: the claimed invariant fails on the code. `_resolve_ref` caches the
pre-recursion value of a ref target and a later cache hit returns that value
without resolving the refs nested inside it, so resolving `c1doc` succeeds
but returns a document that still holds a `$ref` key: the second occurrence
of `#/defs/T` comes back with its inner `{"$ref": "#/defs/U"}` intact. The
docstrings of `load_openapi` ("Fully resolved OpenAPI document with all
$refs expanded") and `RefResolver.resolve` ("A new OpenAPIDocument with all
references resolved") promise the invariant, so the code, not the claim, is
wrong. -/
theorem c1_repeated_ref_leaves_unresolved :
    resultHasRefKey (c1resolver.resolve "" 20) = true ∧
    Json.beq
      (pyGetD (pyGetD (resultDoc (c1resolver.resolve "" 20)) "b" .null) "inner" .null)
      (.obj [("$ref", .str "#/defs/U")]) = true ∧
    Json.beq
      (pyGetD (pyGetD (resultDoc (c1resolver.resolve "" 20)) "a" .null) "inner" .null)
      (.obj [("type", .str "string")]) = true := by
  decide

/-! ### C4: idempotence on ref-free documents -/

/-- C4: a document with no `$ref` key anywhere is a fixed point of
`RefResolver.resolve` — the resolver walks it structurally, rebuilds it
unchanged and touches no cache (given fuel at least the document size, a
bound the unbounded Python recursion does not need). -/
theorem c4_resolve_idempotent (r : RefResolver) (cwd : String) (fuel : Nat)
    (h1 : hasRefKey r.document = false) (h2 : jsize r.document ≤ fuel) :
    r.resolve cwd fuel = .ok (r.document, { cache := [], docCache := [] }) := by
  rw [RefResolver.resolve]
  exact (resolveNoRefAll fuel).1 r r.document _ _ h1 h2

def c4resolver : RefResolver :=
  { document := .obj [("openapi", .str "3.0.3"),
      ("paths", .obj [("/x", .obj [("get", .obj [("responses",
        .obj [("200", .obj [("description", .str "ok")])])])])]),
      ("components", .obj [("schemas", .obj [("User",
        .obj [("type", .str "object"), ("properties", .obj [("id",
          .obj [("type", .str "integer")])])])])])]
    basePath := none
    fs := fun _ => none }

/-- C4 witness: a concrete fully-resolved document comes back unchanged. -/
theorem c4_resolve_idempotent_witness :
    c4resolver.resolve "" 40 = .ok (c4resolver.document, { cache := [], docCache := [] }) :=
  c4_resolve_idempotent c4resolver "" 40 (by decide) (by decide)

/-! ### C5: sibling merge -/

theorem lookupAssoc_setAssoc {κ α : Type} [DecidableEq κ] (l : List (κ × α)) (k key : κ)
    (v : α) :
    lookupAssoc (setAssoc l k v) key = if k = key then some v else lookupAssoc l key := by
  induction l with
  | nil => simp [setAssoc, lookupAssoc]
  | cons kv rest ih =>
    obtain ⟨k0, v0⟩ := kv
    by_cases hk : k0 = k
    · subst hk
      by_cases hkey : k0 = key
      · subst hkey
        simp [setAssoc, lookupAssoc]
      · simp [setAssoc, lookupAssoc, hkey]
    · by_cases hkey : k0 = key
      · subst hkey
        have hne : ¬ (k = k0) := fun h => hk h.symm
        simp [setAssoc, lookupAssoc, hk, hne]
      · simp [setAssoc, lookupAssoc, hk, hkey, ih]

theorem lookupAssoc_eq_none_of_not_mem {κ α : Type} [DecidableEq κ] (l : List (κ × α))
    (k : κ) (h : k ∉ l.map Prod.fst) : lookupAssoc l k = none := by
  induction l with
  | nil => rfl
  | cons kv rest ih =>
    obtain ⟨k0, v0⟩ := kv
    simp only [List.map_cons, List.mem_cons] at h
    push_neg at h
    obtain ⟨h1, h2⟩ := h
    rw [lookupAssoc, if_neg (fun hc => h1 hc.symm)]
    exact ih h2

/-- Overlaying sibling bindings on a base dictionary: set each binding in
order (the declarative reading of the merge loop). -/
def overlayFields : List (String × Json) → List (String × Json) → List (String × Json)
  | base, [] => base
  | base, (k, v) :: rest => overlayFields (setAssoc base k v) rest

theorem overlayFields_lookup_none :
    ∀ (sibs base : List (String × Json)) (k : String),
      lookupAssoc sibs k = none →
      lookupAssoc (overlayFields base sibs) k = lookupAssoc base k := by
  intro sibs
  induction sibs with
  | nil => intro base k h; rfl
  | cons kv rest ih =>
    obtain ⟨k0, v0⟩ := kv
    intro base k h
    by_cases hk : k0 = k
    · rw [lookupAssoc, if_pos hk] at h
      simp at h
    · rw [lookupAssoc, if_neg hk] at h
      rw [overlayFields, ih (setAssoc base k0 v0) k h, lookupAssoc_setAssoc]
      simp [hk]

theorem overlayFields_lookup_some :
    ∀ (sibs base : List (String × Json)) (k : String) (v : Json),
      (sibs.map Prod.fst).Nodup → lookupAssoc sibs k = some v →
      lookupAssoc (overlayFields base sibs) k = some v := by
  intro sibs
  induction sibs with
  | nil => intro base k v hnd h; simp [lookupAssoc] at h
  | cons kv rest ih =>
    obtain ⟨k0, v0⟩ := kv
    intro base k v hnd h
    simp only [List.map_cons, List.nodup_cons] at hnd
    obtain ⟨hk0nm, hndr⟩ := hnd
    by_cases hk : k0 = k
    · subst hk
      rw [lookupAssoc, if_pos rfl] at h
      obtain rfl : v0 = v := by simpa using h
      rw [overlayFields]
      have hnr : lookupAssoc rest k0 = none := lookupAssoc_eq_none_of_not_mem rest k0 hk0nm
      rw [overlayFields_lookup_none rest _ k0 hnr, lookupAssoc_setAssoc]
      simp
    · rw [lookupAssoc, if_neg hk] at h
      rw [overlayFields]
      exact ih (setAssoc base k0 v0) k v hndr h

/-- Resolving the non-`$ref` siblings of a ref object in key order,
threading the state — the values the merge loop overlays. -/
def resolveSiblings (r : RefResolver) (fuel : Nat) (fields : List (String × Json))
    (currentBase : String) (st : RState) :
    Except RErr (List (String × Json) × RState) :=
  match fuel with
  | 0 => .error .outOfFuel
  | fuel + 1 =>
    match fields with
    | [] => .ok ([], st)
    | (k, v) :: rest =>
      if k = "$ref" then resolveSiblings r fuel rest currentBase st
      else
        match resolveObject r fuel v currentBase st with
        | .ok (rv, st2) =>
          match resolveSiblings r fuel rest currentBase st2 with
          | .ok (rs, st3) => .ok ((k, rv) :: rs, st3)
          | .error e => .error e
        | .error e => .error e

/-- The interleaved merge loop equals: resolve the siblings left to right,
then overlay them on the target. -/
theorem resolveMerge_eq_overlay :
    ∀ (fields : List (String × Json)) (r : RefResolver) (fuel : Nat)
      (merged : List (String × Json)) (base : String) (st : RState),
      resolveMerge r fuel fields merged base st =
        match resolveSiblings r fuel fields base st with
        | .ok (sibs, st2) => .ok (.obj (overlayFields merged sibs), st2)
        | .error e => .error e := by
  intro fields
  induction fields with
  | nil =>
    intro r fuel merged base st
    match fuel with
    | 0 => rfl
    | f + 1 => rfl
  | cons kv rest ih =>
    obtain ⟨k, v⟩ := kv
    intro r fuel merged base st
    match fuel with
    | 0 => rfl
    | f + 1 =>
      by_cases hk : k = "$ref"
      · simp only [resolveMerge, resolveSiblings, if_pos hk]
        exact ih r f merged base st
      · simp only [resolveMerge, resolveSiblings, if_neg hk]
        cases hro : resolveObject r f v base st with
        | error e => rfl
        | ok pair =>
          obtain ⟨rv, st2⟩ := pair
          dsimp only
          rw [ih r f (setAssoc merged k rv) base st2]
          cases hrs : resolveSiblings r f rest base st2 with
          | error e => rfl
          | ok pair2 =>
            obtain ⟨rs, st3⟩ := pair2
            simp [overlayFields]

/-- C5: resolving a ref object with sibling keys whose target resolves to a
dictionary produces exactly the resolved target overlaid with the resolved
siblings in key order; on the overlay, a key carried by some sibling gets
the sibling's resolved value (sibling wins on collision), and a key carried
by no sibling keeps the target's value. -/
theorem c5_sibling_merge (r : RefResolver) (fuel : Nat)
    (fields targetFields : List (String × Json)) (ref base : String) (st st1 : RState)
    (href : lookupAssoc fields "$ref" = some (.str ref))
    (hlen : fields.length ≠ 1)
    (htarget : resolveRef r fuel ref base st = .ok (.obj targetFields, st1)) :
    resolveObject r (fuel + 1) (.obj fields) base st =
      (match resolveSiblings r fuel fields base st1 with
       | .ok (sibs, st2) => .ok (.obj (overlayFields targetFields sibs), st2)
       | .error e => .error e) ∧
    ∀ sibs st2 k, resolveSiblings r fuel fields base st1 = .ok (sibs, st2) →
      (lookupAssoc sibs k = none →
        lookupAssoc (overlayFields targetFields sibs) k = lookupAssoc targetFields k) ∧
      (∀ v, (sibs.map Prod.fst).Nodup → lookupAssoc sibs k = some v →
        lookupAssoc (overlayFields targetFields sibs) k = some v) := by
  constructor
  · simp only [resolveObject, href]
    rw [htarget]
    dsimp only
    rw [if_neg hlen]
    exact resolveMerge_eq_overlay fields r fuel targetFields base st1
  · intro sibs st2 k hsibs
    exact ⟨fun hnone => overlayFields_lookup_none sibs targetFields k hnone,
           fun v hnd hsome => overlayFields_lookup_some sibs targetFields k v hnd hsome⟩

/-- The C5 witness resolver: the root document plus one external file
`components.json` under the base directory `specs`, holding the `User`
schema `{"type": "object"}`. -/
def c5resolver : RefResolver :=
  { document := .obj [("openapi", .str "3.0.3")]
    basePath := some "specs"
    fs := fun p =>
      if p = "specs/components.json" then
        some (.obj [("components", .obj [("schemas", .obj [("User",
          .obj [("type", .str "object")])])])])
      else none }

/-- C5 witness: resolving `{"$ref": "components.json#/components/schemas/User",
"description": "merged"}` against a target `{"type": "object"}` yields
`{"type": "object", "description": "merged"}` — target field kept, sibling
overlaid. -/
theorem c5_sibling_merge_witness :
    resolveObject c5resolver 10
      (.obj [("$ref", .str "components.json#/components/schemas/User"),
             ("description", .str "merged")]) "specs" { cache := [], docCache := [] } =
    .ok (.obj [("type", .str "object"), ("description", .str "merged")],
      { cache := [("components.json#/components/schemas/User",
          .obj [("type", .str "object")])],
        docCache := [("specs/components.json",
          .obj [("components", .obj [("schemas", .obj [("User",
            .obj [("type", .str "object")])])])])] }) := by
  have h := c5_sibling_merge c5resolver 9
    [("$ref", .str "components.json#/components/schemas/User"),
     ("description", .str "merged")]
    [("type", .str "object")]
    "components.json#/components/schemas/User" "specs"
    { cache := [], docCache := [] }
    { cache := [("components.json#/components/schemas/User",
        .obj [("type", .str "object")])],
      docCache := [("specs/components.json",
        .obj [("components", .obj [("schemas", .obj [("User",
          .obj [("type", .str "object")])])])])] }
    (by decide) (by decide) (by decide)
  exact h.1.trans (by decide)

/-! ### C9: unresolvable pointer raises SpecError -/

/-- C9: a local `$ref` whose JSON-pointer fragment fails to resolve (a path
segment missing from the target document) makes `_resolve_ref` raise the
`Unresolvable $ref pointer` SpecError, and a ref object carrying that `$ref`
propagates the same error out of `_resolve_object`. -/
theorem c9_unresolvable_pointer (r : RefResolver) (fuel : Nat) (ref base : String)
    (st : RState) (frag : String)
    (hcache : lookupAssoc st.cache ref = none)
    (hdefrag : urldefrag ref = ("", frag))
    (hfrag : strStartsWith frag "/" = true)
    (hptr : resolvePointer r.document frag = .error (.unresolvablePointer frag)) :
    resolveRef r (fuel + 1) ref base st = .error (.spec (.unresolvablePointer frag)) ∧
    resolveObject r (fuel + 2) (.obj [("$ref", .str ref)]) base st =
      .error (.spec (.unresolvablePointer frag)) := by
  have h1 : resolveRef r (fuel + 1) ref base st =
      .error (.spec (.unresolvablePointer frag)) := by
    simp only [resolveRef, hcache, hdefrag]
    simp only [loadTarget, if_true]
    have hc : ¬ (frag ≠ "" ∧ strStartsWith frag "/" = false) := by simp [hfrag]
    rw [if_neg hc, hptr]
  refine ⟨h1, ?_⟩
  simp only [resolveObject, lookupAssoc, if_true]
  rw [h1]

def c9resolver : RefResolver :=
  { document := .obj [("openapi", .str "3.0.3"), ("paths", .obj []),
      ("components", .obj [("schemas", .obj [("User",
        .obj [("$ref", .str "#/components/schemas/DoesNotExist")])])])]
    basePath := none
    fs := fun _ => none }

/-- C9 witness: `{"$ref": "#/components/schemas/DoesNotExist"}` against a
document lacking that key raises the unresolvable-pointer `SpecError`, both
at the ref level and for the whole `resolve` run. -/
theorem c9_unresolvable_pointer_witness :
    resolveRef c9resolver 4 "#/components/schemas/DoesNotExist" ""
        { cache := [], docCache := [] } =
      .error (.spec (.unresolvablePointer "/components/schemas/DoesNotExist")) ∧
    c9resolver.resolve "" 20 =
      .error (.spec (.unresolvablePointer "/components/schemas/DoesNotExist")) := by
  have h := c9_unresolvable_pointer c9resolver 3 "#/components/schemas/DoesNotExist" ""
    { cache := [], docCache := [] } "/components/schemas/DoesNotExist"
    (by decide) (by decide) (by decide) (by decide)
  exact ⟨h.1, by decide⟩
